import Mathlib

/-!
Verification of the `c7n.offhours` module (schedule mini-language parser and
time-window evaluator) against its natural-language specification.

The embedding below translates the Python source (`src/c7n/offhours.py`)
into Lean. Python strings are modelled as `List Char`; Python dicts keyed by
strings are modelled as association lists with replace-or-append assignment
(mirroring CPython's insertion-order semantics); Python exceptions are
modelled with `Except String`/`Option`. The system clock is modelled as an
explicit function from a timezone name to the current local time, truncated
to (weekday, hour, minute) — seconds and microseconds are zeroed by every
code path under study and therefore omitted. The timezone database
(`dateutil.zoneinfo.gettz`) is external to the repository and is modelled as
membership in an explicit list of known zone names.
-/

namespace Offhours

abbrev Str := List Char

/-- Python `value.split(sep)` for a separator predicate that holds on exactly
the separator characters: split at every matching character, keeping empty
pieces (so the result is always non-empty). -/
def pySplitP (p : Char → Bool) : Str → List Str
  | [] => [[]]
  | c :: rest =>
    match pySplitP p rest with
    | [] => [[]]
    | h :: t => if p c then [] :: h :: t else (c :: h) :: t

/-- Python `value.split(sep)` for a single-character separator. -/
def pySplit1 (sep : Char) (s : Str) : List Str :=
  pySplitP (fun c => c == sep) s

/-- Python `value.split(sep)` for the two-character separator `",("` used by
`ScheduleParser.parse_custom_hours`: non-overlapping, left to right. -/
def pySplit2 (a b : Char) : Str → List Str
  | [] => [[]]
  | [c] => [[c]]
  | c :: d :: rest =>
    if c = a ∧ d = b then
      [] :: pySplit2 a b rest
    else
      match pySplit2 a b (d :: rest) with
      | [] => [[]]
      | h :: t => (c :: h) :: t

/-- Python `value.strip(ch)` for a single character: drop every leading and
trailing occurrence of `ch`. -/
def stripChar (ch : Char) (s : Str) : Str :=
  ((s.dropWhile (fun c => c == ch)).reverse.dropWhile (fun c => c == ch)).reverse

/-- Python 2 `value.translate(None, deletechars)`: delete every occurrence of
the given characters. -/
def removeChars (cs : Str) (s : Str) : Str :=
  s.filter (fun c => !cs.contains c)

/-- Python `value.lower()` (ASCII case folding suffices here). -/
def toLowerStr (s : Str) : Str := s.map Char.toLower

/-- Helper for `pyInt`: the value of a non-empty all-digit string. -/
def digitsValGo (acc : Nat) : Str → Option Nat
  | [] => some acc
  | c :: rest =>
    if c.isDigit then digitsValGo (acc * 10 + (c.toNat - '0'.toNat)) rest else none

/-- Helper for `pyInt`: `none` on the empty string or any non-digit. -/
def digitsVal : Str → Option Nat
  | [] => none
  | c :: rest => digitsValGo 0 (c :: rest)

/-- Python `value.strip()`: drop leading and trailing whitespace. -/
def pyStrip (s : Str) : Str :=
  ((s.dropWhile Char.isWhitespace).reverse.dropWhile Char.isWhitespace).reverse

/-- Python `int(value)` (base 10): optional surrounding whitespace, optional
sign, then a non-empty digit string; `none` models the `ValueError`. -/
def pyInt (s : Str) : Option Int :=
  match pyStrip s with
  | '-' :: rest => (digitsVal rest).map (fun n => -(n : Int))
  | '+' :: rest => (digitsVal rest).map (fun n => (n : Int))
  | t => (digitsVal t).map (fun n => (n : Int))

/-! ## Module-level constants (`c7n/offhours.py`, lines 134-164) -/

def DEFAULT_TAG : Str := "maid_offhours".toList

def DEFAULT_OFFHOUR : Nat := 19

def DEFAULT_ONHOUR : Nat := 7

def DEFAULT_TZ : Str := "et".toList

def TZ_ALIASES : List (Str × Str) := [
  ("pdt".toList, "America/Los_Angeles".toList),
  ("pt".toList, "America/Los_Angeles".toList),
  ("pst".toList, "America/Los_Angeles".toList),
  ("est".toList, "America/New_York".toList),
  ("edt".toList, "America/New_York".toList),
  ("et".toList, "America/New_York".toList),
  ("cst".toList, "America/Chicago".toList),
  ("cdt".toList, "America/Chicago".toList),
  ("ct".toList, "America/Chicago".toList),
  ("mt".toList, "America/Denver".toList),
  ("gmt".toList, "Europe/London".toList),
  ("gt".toList, "Europe/London".toList)]

def VALID_DAYS : List Str := [
  "m".toList, "t".toList, "w".toList, "h".toList, "f".toList, "s".toList, "u".toList]

def VALID_HOURS : List Int := [0, 1, 2, 3, 4, 5, 6, 7, 8, 9, 10, 11, 12, 13, 14,
  15, 16, 17, 18, 19, 20, 21, 22, 23]

/-! ## Data model

A parsed schedule is a Python dict from string keys to heterogeneous values:
strings for `tz` and unrecognized keys, lists of custom-hour rules for `on`
and `off`. -/

/-- One custom rule `{'days': [...], 'hour': h}` from `parse_custom_hours`. -/
structure HourRule where
  days : List Str
  hour : Int
deriving DecidableEq, Repr

/-- A Python dict value in a parsed schedule. -/
inductive SVal where
  | str (s : Str)
  | hours (l : List HourRule)
deriving DecidableEq, Repr

/-- A Python dict with string keys, as an insertion-ordered association list. -/
abbrev Dict := List (Str × SVal)

/-- Dict lookup (`d.get(k)` / `k in d`). -/
def alGet {α : Type} (k : Str) : List (Str × α) → Option α
  | [] => none
  | (k', v) :: rest => if k' = k then some v else alGet k rest

/-- Dict assignment `d[k] = v`: replace in place if the key exists, else
append (CPython preserves insertion order). -/
def alSet {α : Type} (k : Str) (v : α) : List (Str × α) → List (Str × α)
  | [] => [(k, v)]
  | (k', v') :: rest => if k' = k then (k, v) :: rest else (k', v') :: alSet k v rest

/-- Python `k in d`. -/
def alHasKey {α : Type} (k : Str) (d : List (Str × α)) : Bool :=
  (alGet k d).isSome

def onKey : Str := "on".toList

def offKey : Str := "off".toList

def tzKey : Str := "tz".toList

/-! ## ScheduleParser (`c7n/offhours.py`, lines 356-460) -/

/-- Python `list.index(x)`, total: returns the list length when absent (the
callers below only apply it to members). -/
def listIndex (d : Str) : List Str → Nat
  | [] => 0
  | x :: rest => if x = d then 0 else listIndex d rest + 1

/-- `ScheduleParser.is_valid_day`. -/
def isValidDay (day : Str) : Bool :=
  VALID_DAYS.contains day

/-- `ScheduleParser.is_valid_hour_range`. -/
def isValidHourRange (hour : Int) : Bool :=
  VALID_HOURS.contains hour

/-- `ScheduleParser.expand_day_range`. `none` models the raised `ValueError`;
note that a days string that does not split into exactly two pieces on `-`
returns the empty list rather than raising. A two-sided range expands to
the Python slice `VALID_DAYS[index(a) : index(b)+1]`. -/
def expandDayRange (days : Str) : Option (List Str) :=
  if days.length = 1 then
    if isValidDay days then some [days] else none
  else
    match pySplit1 '-' days with
    | [a, b] =>
      if isValidDay a ∧ isValidDay b then
        some ((VALID_DAYS.drop (listIndex a VALID_DAYS)).take
          (listIndex b VALID_DAYS + 1 - listIndex a VALID_DAYS))
      else none
    | _ => some []

/-- The group-by-group loop of `ScheduleParser.parse_custom_hours`:
`none` models the all-or-nothing `return []` taken on a wrong-arity group,
a non-numeric hour, an out-of-range hour, or an invalid day code. -/
def pchGo : List Str → Option (List HourRule)
  | [] => some []
  | g :: rest =>
    match pySplit1 ',' (removeChars "()".toList g) with
    | [d, h] =>
      match pyInt h with
      | none => none
      | some hv =>
        if isValidHourRange hv then
          match expandDayRange d with
          | none => none
          | some ds =>
            match pchGo rest with
            | none => none
            | some l => some ({ days := ds, hour := hv } :: l)
        else none
    | _ => none

/-- `ScheduleParser.parse_custom_hours`: strips square brackets, splits the
value into groups on `",("`, and parses each group; any bad group collapses
the whole value to `[]`. -/
def parseCustomHours (hs : Str) : List HourRule :=
  (pchGo (pySplit2 ',' '(' (removeChars "[]".toList hs))).getD []

/-- The piece loop of `ScheduleParser.parse`: split each piece on `=`,
skip pieces that are not exactly key-value, route `on`/`off` values through
`parse_custom_hours`, and assign into the schedule dict. -/
def parsePieces : List Str → Dict → Dict
  | [], sched => sched
  | piece :: rest, sched =>
    match pySplit1 '=' piece with
    | [k, v] =>
      if k = onKey ∨ k = offKey then
        parsePieces rest (alSet k (SVal.hours (parseCustomHours v)) sched)
      else
        parsePieces rest (alSet k (SVal.str v) sched)
    | _ => parsePieces rest sched

/-- Python `len(hours) > 0` check plus per-rule validation; the value stored
under `on`/`off` is always `SVal.hours`, so the `str` case is vacuous. -/
def svalHours : SVal → List HourRule
  | .hours l => l
  | .str _ => []

/-- `ScheduleParser.is_valid_hour`. -/
def isValidHour (h : HourRule) : Bool :=
  decide (0 < h.days.length)

/-- `ScheduleParser.is_valid_hours`. -/
def isValidHours (hours : List HourRule) : Bool :=
  decide (0 < hours.length) && hours.all isValidHour

/-- `schedule['off']` / `schedule['on']` viewed as a rule list. -/
def schedHours (sched : Dict) (k : Str) : List HourRule :=
  svalHours ((alGet k sched).getD (SVal.hours []))

/-- `ScheduleParser.is_valid`. -/
def isValid (sched : Dict) : Bool :=
  if alHasKey offKey sched ∧ ¬ alHasKey onKey sched then false
  else if alHasKey onKey sched ∧ ¬ alHasKey offKey sched then false
  else if alHasKey offKey sched ∧ alHasKey onKey sched then
    isValidHours (schedHours sched offKey) && isValidHours (schedHours sched onKey)
  else true

/-- `ScheduleParser.parse`, without the cache (the cached wrapper is
`parseCached` below): split on `;`, build the dict, substitute the default
timezone when absent, and validate; `none` is the explicit Invalid result. -/
def parse (tagValue : Str) : Option Dict :=
  let sched := parsePieces (pySplit1 ';' tagValue) []
  let sched := if alHasKey tzKey sched then sched else alSet tzKey (SVal.str DEFAULT_TZ) sched
  if isValid sched then some sched else none

/-- The cache-aware entry point of `ScheduleParser.parse`: `self.cache` is a
class attribute, modelled as explicit state threaded through the call. -/
def parseCached (cache : List (Str × Option Dict)) (tagValue : Str) :
    Option Dict × List (Str × Option Dict) :=
  match alGet tagValue cache with
  | some r => (r, cache)
  | none => (parse tagValue, alSet tagValue (parse tagValue) cache)

/-! ## Time-window evaluator (`c7n/offhours.py`, lines 176-352)

The `Time` filter and its `OffHour`/`OnHour` subclasses. The dynamic-type
dispatch in `get_custom_time`/`get_sentinel_time` becomes an explicit
`Variant` tag. -/

/-- A local wall-clock time at hour granularity. Both `now` (after
`replace(minute=0, second=0, microsecond=0)`) and the sentinel zero the
seconds and microseconds, so only (weekday, hour, minute) can differ;
the calendar date is the same single evaluation instant throughout.
`weekday` follows Python's `datetime.weekday()`: Monday = 0 .. Sunday = 6. -/
structure DateTime where
  weekday : Nat
  hour : Nat
  minute : Nat
deriving DecidableEq, Repr

/-- Python `datetime.replace(hour=h)`: raises `ValueError` for an hour
outside 0..23 (the skew loop can reach hour 24 and beyond). -/
def replaceHour (t : DateTime) (h : Nat) : Except String DateTime :=
  if h ≤ 23 then .ok { t with hour := h } else .error "hour must be in 0..23"

/-- Python `datetime.replace(hour=h, minute=m, second=0, microsecond=0)`. -/
def replaceHM (t : DateTime) (h m : Nat) : Except String DateTime :=
  if h ≤ 23 then
    if m ≤ 59 then .ok { t with hour := h, minute := m }
    else .error "minute must be in 0..59"
  else .error "hour must be in 0..23"

/-- Which filter class is evaluating: the generic `Time` base, `OffHour`,
or `OnHour` (the `type(self).__name__` checks in the source). -/
inductive Variant where
  | base
  | offh
  | onh
deriving DecidableEq, Repr

/-- The filter's `self.data` options together with the values `__init__`
resolves from them (`skew`, `weekends`, `opt_out` with their defaults).
`default_tz_dash` is the `'default-tz'` key read by `get_local_tz`. -/
structure TimeData where
  tag : Option Str := none
  default_tz : Option Str := none
  default_tz_dash : Option Str := none
  skew : Nat := 0
  weekends : Bool := false
  opt_out : Bool := false
  hour : Nat := 0
  minute : Nat := 0
  offhour : Option Nat := none
  onhour : Option Nat := none

/-- A resource: the `Tags` list of `{Key, Value}` pairs read by
`get_tag_parts`. -/
structure Resource where
  tags : List (Str × Str)

/-- `dateutil.zoneinfo.gettz`, modelled over an explicit database `db` of
known zone names: a known name resolves to itself, anything else to `none`. -/
def gettz (db : List Str) (tzSpec : Str) : Option Str :=
  if db.contains tzSpec then some tzSpec else none

/-- The default branch of `get_local_tz`:
`self.data.get('default_tz') or self.data.get('default-tz', DEFAULT_TZ)`
(an empty `default_tz` string is falsy and falls through). -/
def defaultTzOf (d : TimeData) : Str :=
  match d.default_tz with
  | some s => if s.isEmpty then d.default_tz_dash.getD DEFAULT_TZ else s
  | none => d.default_tz_dash.getD DEFAULT_TZ

/-- `Time.get_local_tz`: find a part starting with `tz=`, else use the
policy default; unpack `_, tz_spec = tz_spec.split('=')` (which raises —
`.error` — unless the split has exactly two pieces); map through
`TZ_ALIASES`; resolve via `gettz`, `none` meaning resolution failure. -/
def getLocalTz (d : TimeData) (db : List Str) (parts : List Str) :
    Except String (Option Str) :=
  match parts.find? (fun p => "tz=".toList.isPrefixOf p) with
  | none =>
    let tzSpec := defaultTzOf d
    .ok (gettz db ((alGet tzSpec TZ_ALIASES).getD tzSpec))
  | some p =>
    match pySplit1 '=' p with
    | [_, b] => .ok (gettz db ((alGet b TZ_ALIASES).getD b))
    | _ => .error "unpack"

/-- `Time.get_tag_parts`: `none` is the `False` returned when the configured
tag key is absent; otherwise the tag value lowercased, quote-stripped and
split on whitespace (Python's `filter(None, value.split())`). -/
def getTagParts (d : TimeData) (r : Resource) : Option (List Str) :=
  let tagKey := toLowerStr (d.tag.getD DEFAULT_TAG)
  let tagMap := r.tags.foldl (fun m kv => alSet (toLowerStr kv.1) kv.2 m)
    ([] : List (Str × Str))
  match alGet tagKey tagMap with
  | none => none
  | some value =>
    let v := stripChar '"' (stripChar (Char.ofNat 39) (toLowerStr value))
    some ((pySplitP Char.isWhitespace v).filter (fun x => !x.isEmpty))

/-- Python truthiness of a schedule value (`parts.get("on")` used as a
condition): a missing key, empty string or empty list is falsy. -/
def truthy : Option SVal → Bool
  | none => false
  | some (.str s) => !s.isEmpty
  | some (.hours l) => !l.isEmpty

/-- `Time.is_custom`: requires the parsed dict to have exactly three keys
and truthy `on` and `off` values. -/
def isCustom (parsed : Dict) : Bool :=
  decide (parsed.length = 3) && truthy (alGet onKey parsed) && truthy (alGet offKey parsed)

/-- The per-rule check inside `Time.get_custom_time`: some listed day is
today (`VALID_DAYS.index(d) == now.weekday()`) and the rule hour equals
`now`'s hour exactly. -/
def ruleMatches (now : DateTime) (item : HourRule) : Bool :=
  item.days.any (fun dd =>
    decide (now.weekday = listIndex dd VALID_DAYS) && decide ((now.hour : Int) = item.hour))

/-- `Time.get_custom_time`: the on-hour variant reads the `on` list, the
off-hour variant the `off` list, the base class returns `False`. (The guard
`is_custom` guarantees the key is present and holds a rule list.) -/
def getCustomTime (v : Variant) (now : DateTime) (parsed : Dict) : Bool :=
  match v with
  | .onh => (schedHours parsed onKey).any (ruleMatches now)
  | .offh => (schedHours parsed offKey).any (ruleMatches now)
  | .base => false

/-- `Time.get_sentinel_time` plus the `OffHour`/`OnHour` overrides: today's
date at `data.get('hour', 0)`/`data.get('minute', 0)`, with the hour then
replaced by the variant's configured sentinel hour. -/
def getSentinelTime (v : Variant) (d : TimeData) (t : DateTime) :
    Except String DateTime :=
  match replaceHM t d.hour d.minute with
  | .error e => .error e
  | .ok t1 =>
    match v with
    | .base => .ok t1
    | .offh => replaceHour t1 (d.offhour.getD DEFAULT_OFFHOUR)
    | .onh => replaceHour t1 (d.onhour.getD DEFAULT_ONHOUR)

/-- The skew loop of `process_current_time`:
`for i in range(1, skew+1): sentinel = sentinel.replace(hour=hour+i); ...`
with `h0` the sentinel hour captured before the loop. -/
def skewLoop (h0 : Nat) (now sentinel : DateTime) : List Nat → Except String Bool
  | [] => .ok false
  | i :: rest =>
    match replaceHour sentinel (h0 + i) with
    | .error e => .error e
    | .ok s1 => if s1 = now then .ok true else skewLoop h0 now s1 rest

/-- The formatting `'tz=%s' % parsed.get('tz')` of the schedule's timezone
value. The key is always present with a string value on every reachable
path; `None` would format as the four characters `None`, and a rule list as
its list repr (placeholder — the `tz` key never holds one). -/
def formatTz : Option SVal → Str
  | none => "None".toList
  | some (.str s) => s
  | some (.hours _) => "[...]".toList

/-- The single-element parts list `['tz=%s' % parsed.get('tz')]` built by
`process_current_time` before calling `get_local_tz`. -/
def tzPart (parsed : Dict) : Str :=
  "tz=".toList ++ formatTz (alGet tzKey parsed)

/-- The schedule `process_current_time` ends up with: `parts[0]` parsed, with
both the `IndexError` on an empty parts list and a `None` parse falling back
to `parse("")` (which always succeeds). -/
def parsedOf (parts : List Str) : Dict :=
  match parts.head? with
  | none => (parse []).getD []
  | some p =>
    match parse p with
    | none => (parse []).getD []
    | some s => s

/-- `Time.process_current_time` (the clock is sampled per zone through
`clock`; the code's two `datetime.now(tz)` calls observe the same instant). -/
def processCurrentTime (v : Variant) (d : TimeData) (db : List Str)
    (clock : Str → DateTime) (parts : List Str) : Except String Bool :=
  let parsed := parsedOf parts
  match getLocalTz d db [tzPart parsed] with
  | .error e => .error e
  | .ok none => .ok false
  | .ok (some tzName) =>
    let now : DateTime := { clock tzName with minute := 0 }
    if d.weekends = false ∧ (now.weekday = 5 ∨ now.weekday = 6) then .ok false
    else if isCustom parsed then .ok (getCustomTime v now parsed)
    else
      match getSentinelTime v d (clock tzName) with
      | .error e => .error e
      | .ok sentinel =>
        if sentinel = now then .ok true
        else if d.skew = 0 then .ok false
        else skewLoop sentinel.hour now sentinel (List.range' 1 d.skew)

/-- The tail of `Time.__call__` once the parts list is known: the literal
token `off` short-circuits to `False`, otherwise `process_current_time`. -/
def timeCallBody (v : Variant) (d : TimeData) (db : List Str)
    (clock : Str → DateTime) (parts : List Str) : Except String Bool :=
  if "off".toList ∈ parts then .ok false
  else processCurrentTime v d db clock parts

/-- `Time.__call__`: a missing tag returns `False` in opt-in mode and
proceeds with an empty parts list in opt-out mode. -/
def timeCall (v : Variant) (d : TimeData) (db : List Str)
    (clock : Str → DateTime) (r : Resource) : Except String Bool :=
  match getTagParts d r with
  | none => if d.opt_out then timeCallBody v d db clock [] else .ok false
  | some parts => timeCallBody v d db clock parts

/-- The zone database used for concrete evaluations: the targets of the
alias table (any real installation's database is a superset). -/
def stdDb : List Str := [
  "America/Los_Angeles".toList,
  "America/New_York".toList,
  "America/Chicago".toList,
  "America/Denver".toList,
  "Europe/London".toList]

/-! ## Infrastructure lemmas -/

instance {e a : Type} [DecidableEq e] [DecidableEq a] : DecidableEq (Except e a) := fun x y =>
  match x, y with
  | .ok u, .ok v =>
    if h : u = v then isTrue (by rw [h]) else isFalse (fun hh => h (Except.ok.inj hh))
  | .error u, .error v =>
    if h : u = v then isTrue (by rw [h]) else isFalse (fun hh => h (Except.error.inj hh))
  | .ok _, .error _ => isFalse (fun hh => Except.noConfusion hh)
  | .error _, .ok _ => isFalse (fun hh => Except.noConfusion hh)

theorem pySplitP_ne_nil (p : Char → Bool) (s : Str) : pySplitP p s ≠ [] := by
  cases s with
  | nil => simp [pySplitP]
  | cons c rest =>
    unfold pySplitP
    cases hr : pySplitP p rest with
    | nil => simp
    | cons h t => by_cases hp : p c <;> simp [hp]

theorem pySplitP_no_sep (p : Char → Bool) (s : Str) (h : ∀ c ∈ s, p c = false) :
    pySplitP p s = [s] := by
  induction s with
  | nil => rfl
  | cons c rest ih =>
    have hc : p c = false := h c (List.mem_cons_self c rest)
    have hr := ih (fun c' hc' => h c' (List.mem_cons_of_mem _ hc'))
    simp [pySplitP, hr, hc]

theorem pySplitP_single (p : Char → Bool) (s x : Str) (h : pySplitP p s = [x]) :
    x = s ∧ ∀ c ∈ x, p c = false := by
  induction s generalizing x with
  | nil =>
    simp [pySplitP] at h
    subst h
    simp
  | cons c rest ih =>
    cases hr : pySplitP p rest with
    | nil => exact absurd hr (pySplitP_ne_nil p rest)
    | cons hh tt =>
      unfold pySplitP at h
      rw [hr] at h
      by_cases hp : p c
      · simp [hp] at h
      · simp only [hp, if_false, Bool.false_eq_true] at h
        have h1 : c :: hh = x ∧ tt = [] := by
          constructor
          · exact (List.cons.inj h).1
          · exact (List.cons.inj h).2.symm ▸ rfl
        obtain ⟨hx, htt⟩ := h1
        subst htt
        have := ih hh hr
        refine ⟨by rw [← hx, this.1], ?_⟩
        intro c' hc'
        rw [← hx] at hc'
        rcases List.mem_cons.mp hc' with h' | h'
        · rw [h']; simpa using hp
        · exact this.2 c' h'

theorem pySplitP_pair (p : Char → Bool) (s k v : Str) (h : pySplitP p s = [k, v]) :
    ∀ c ∈ v, p c = false := by
  induction s generalizing k with
  | nil => simp [pySplitP] at h
  | cons c rest ih =>
    cases hr : pySplitP p rest with
    | nil => exact absurd hr (pySplitP_ne_nil p rest)
    | cons hh tt =>
      unfold pySplitP at h
      rw [hr] at h
      by_cases hp : p c
      · simp only [hp, if_true] at h
        have h1 : hh = v ∧ tt = [] := by
          have := (List.cons.inj h).2
          exact ⟨(List.cons.inj this).1, (List.cons.inj this).2⟩
        obtain ⟨hv, htt⟩ := h1
        exact (pySplitP_single p rest v (by rw [hr, hv, htt])).2
      · simp only [hp, if_false, Bool.false_eq_true] at h
        have h2 : tt = [v] := (List.cons.inj h).2
        exact ih hh (by rw [hr, h2])

theorem pySplit1_pair_not_mem (sep : Char) (s k v : Str) (h : pySplit1 sep s = [k, v]) :
    sep ∉ v := by
  intro hm
  have := pySplitP_pair _ s k v h sep hm
  simp at this

theorem alGet_alSet_self {α : Type} (k : Str) (v : α) (l : List (Str × α)) :
    alGet k (alSet k v l) = some v := by
  induction l with
  | nil => simp [alGet, alSet]
  | cons kv rest ih =>
    obtain ⟨k', v'⟩ := kv
    by_cases h : k' = k <;> simp [alGet, alSet, h, ih]

theorem alGet_alSet_ne {α : Type} (k k' : Str) (v : α) (l : List (Str × α))
    (h : k' ≠ k) : alGet k (alSet k' v l) = alGet k l := by
  induction l with
  | nil => simp [alGet, alSet, h]
  | cons kv rest ih =>
    obtain ⟨k2, v2⟩ := kv
    by_cases h2 : k2 = k' <;> by_cases h3 : k2 = k <;> simp_all [alGet, alSet]

/-- Invariant of every schedule dict reaching `get_local_tz`: a string value
stored under `tz` contains no `=` character (it came from the second piece of
an exactly-two-way split on `=`, or is the default code). This is what makes
the `_, tz_spec = tz_spec.split('=')` unpacking in `get_local_tz` safe. -/
def TzOk (sched : Dict) : Prop :=
  ∀ s, alGet tzKey sched = some (SVal.str s) → '=' ∉ s

theorem parsePieces_tzOk (pieces : List Str) (sched : Dict) (h : TzOk sched) :
    TzOk (parsePieces pieces sched) := by
  induction pieces generalizing sched with
  | nil => exact h
  | cons piece rest ih =>
    unfold parsePieces
    split
    · next k v heq =>
      split
      · next hk =>
        apply ih
        intro s hs
        have hkt : k ≠ tzKey := by
          rcases hk with h' | h' <;> subst h' <;> simp [onKey, offKey, tzKey]
        rw [alGet_alSet_ne _ _ _ _ hkt] at hs
        exact h s hs
      · apply ih
        intro s hs
        by_cases hkt : k = tzKey
        · rw [hkt, alGet_alSet_self] at hs
          have hv : v = s := SVal.str.inj (Option.some.inj hs)
          subst hv
          exact pySplit1_pair_not_mem '=' piece k v heq
        · rw [alGet_alSet_ne _ _ _ _ hkt] at hs
          exact h s hs
    · exact ih sched h

theorem tzOk_set_default {sched : Dict} :
    TzOk (alSet tzKey (SVal.str DEFAULT_TZ) sched) := by
  intro s hs
  rw [alGet_alSet_self] at hs
  have hv : DEFAULT_TZ = s := SVal.str.inj (Option.some.inj hs)
  subst hv
  decide

theorem parse_tzOk (tv : Str) (sched : Dict) (h : parse tv = some sched) :
    TzOk sched := by
  have h0 : TzOk (parsePieces (pySplit1 ';' tv) []) :=
    parsePieces_tzOk _ _ (by intro s hs; simp [alGet] at hs)
  simp only [parse] at h
  split at h <;> split at h <;>
    first
      | exact Option.some.inj h ▸ h0
      | exact Option.some.inj h ▸ tzOk_set_default
      | exact absurd h (by simp)

theorem parse_nil : parse [] = some [(tzKey, SVal.str DEFAULT_TZ)] := by decide

theorem parsedOf_tzOk (parts : List Str) : TzOk (parsedOf parts) := by
  have hdef : TzOk ((parse []).getD []) := by
    rw [parse_nil]
    intro s hs
    simp only [Option.getD_some, alGet, if_pos rfl] at hs
    have hv : DEFAULT_TZ = s := SVal.str.inj (Option.some.inj hs)
    subst hv
    decide
  unfold parsedOf
  cases hh : parts.head? with
  | none => exact hdef
  | some p =>
    cases hp : parse p with
    | none =>
      simp only [hp]
      exact hdef
    | some s =>
      simp only [hp]
      exact parse_tzOk p s hp

theorem isPrefixOf_append (l s : Str) : l.isPrefixOf (l ++ s) = true := by
  rw [List.isPrefixOf_iff_prefix]
  exact List.prefix_append l s

theorem pySplit1_tz_append (s : Str) (h : '=' ∉ s) :
    pySplit1 '=' ("tz=".toList ++ s) = ["tz".toList, s] := by
  have hs : pySplitP (fun c => c == '=') s = [s] := by
    apply pySplitP_no_sep
    intro c hc
    simp only [beq_eq_false_iff_ne, ne_eq]
    intro heq
    exact h (heq ▸ hc)
  show pySplitP (fun c => c == '=') ('t' :: 'z' :: '=' :: s) = [['t', 'z'], s]
  simp [pySplitP, hs]

theorem getLocalTz_tzPart (d : TimeData) (db : List Str) (s : Str) (h : '=' ∉ s) :
    getLocalTz d db ["tz=".toList ++ s] =
      .ok (gettz db ((alGet s TZ_ALIASES).getD s)) := by
  unfold getLocalTz
  have hfind : ["tz=".toList ++ s].find? (fun p => "tz=".toList.isPrefixOf p) =
      some ("tz=".toList ++ s) := by
    simp [List.find?, isPrefixOf_append]
  rw [hfind]
  dsimp only
  rw [pySplit1_tz_append s h]

theorem tzStr_no_eq (parsed : Dict) (h : TzOk parsed) :
    '=' ∉ formatTz (alGet tzKey parsed) := by
  cases hg : alGet tzKey parsed with
  | none => decide
  | some sv =>
    cases sv with
    | str s => exact h s hg
    | hours l =>
      simp only [formatTz]
      decide

/-- The call `get_local_tz(['tz=%s' % parsed.get('tz')])` made by
`process_current_time` never raises and ignores the policy defaults: the
part list always carries an explicit `tz=` entry. -/
theorem getLocalTz_tzPart_ok (d : TimeData) (db : List Str) (parsed : Dict)
    (h : TzOk parsed) :
    getLocalTz d db [tzPart parsed] =
      .ok (gettz db ((alGet (formatTz (alGet tzKey parsed)) TZ_ALIASES).getD
        (formatTz (alGet tzKey parsed)))) :=
  getLocalTz_tzPart d db _ (tzStr_no_eq parsed h)

/-- The sentinel hour each variant configures: the raw `hour` option for the
base class, `offhour`/`onhour` (with the built-in defaults 19/7) for the
subclasses. -/
def sentinelHourOf : Variant → TimeData → Nat
  | .base, d => d.hour
  | .offh, d => d.offhour.getD DEFAULT_OFFHOUR
  | .onh, d => d.onhour.getD DEFAULT_ONHOUR

theorem getSentinelTime_ok (v : Variant) (d : TimeData) (t : DateTime)
    (h1 : d.hour ≤ 23) (h2 : d.minute ≤ 59) (h3 : sentinelHourOf v d ≤ 23) :
    getSentinelTime v d t =
      .ok { t with hour := sentinelHourOf v d, minute := d.minute } := by
  unfold getSentinelTime replaceHM
  rw [if_pos h1, if_pos h2]
  cases v with
  | base => rfl
  | offh =>
    unfold replaceHour
    dsimp only
    rw [if_pos (by simpa [sentinelHourOf] using h3)]
    rfl
  | onh =>
    unfold replaceHour
    dsimp only
    rw [if_pos (by simpa [sentinelHourOf] using h3)]
    rfl

theorem skewLoop_ok (h0 : Nat) (now : DateTime) (sentinel : DateTime)
    (l : List Nat) (h : ∀ i ∈ l, h0 + i ≤ 23) :
    ∃ b, skewLoop h0 now sentinel l = .ok b := by
  induction l generalizing sentinel with
  | nil => exact ⟨false, rfl⟩
  | cons i rest ih =>
    have hi : h0 + i ≤ 23 := h i (List.mem_cons_self i rest)
    have hr : replaceHour sentinel (h0 + i) = .ok { sentinel with hour := h0 + i } := by
      unfold replaceHour
      rw [if_pos hi]
    unfold skewLoop
    rw [hr]
    dsimp only
    by_cases he : ({ sentinel with hour := h0 + i } : DateTime) = now
    · rw [if_pos he]
      exact ⟨true, rfl⟩
    · rw [if_neg he]
      exact ih _ (fun j hj => h j (List.mem_cons_of_mem _ hj))

/-- Weekend short-circuit of `process_current_time`: with the `weekends`
option at its default `false` and the local time on Saturday or Sunday, the
no-match boolean is returned before any custom or sentinel logic runs. -/
theorem processCurrentTime_weekend (v : Variant) (d : TimeData) (db : List Str)
    (clock : Str → DateTime) (parts : List Str)
    (hw : d.weekends = false)
    (hd : ∀ z, (clock z).weekday = 5 ∨ (clock z).weekday = 6) :
    processCurrentTime v d db clock parts = .ok false := by
  simp only [processCurrentTime]
  rw [getLocalTz_tzPart_ok d db _ (parsedOf_tzOk parts)]
  cases gettz db ((alGet (formatTz (alGet tzKey (parsedOf parts))) TZ_ALIASES).getD
      (formatTz (alGet tzKey (parsedOf parts)))) with
  | none => rfl
  | some z =>
    dsimp only
    rw [if_pos ⟨hw, hd z⟩]

/-! ## Claim theorems -/

/-- C6: with weekend-skip in effect (`weekends` absent or false) and the
resolved current time falling on Saturday or Sunday (weekday 5 or 6 whatever
zone the clock is read in), evaluation returns no-match for every resource,
every variant, every hour and every schedule — including custom schedules
naming the weekend day codes. -/
theorem claim_c6_weekend_no_match (v : Variant) (d : TimeData) (db : List Str)
    (clock : Str → DateTime) (r : Resource)
    (hw : d.weekends = false)
    (hd : ∀ z, (clock z).weekday = 5 ∨ (clock z).weekday = 6) :
    timeCall v d db clock r = .ok false := by
  have hbody : ∀ parts, timeCallBody v d db clock parts = .ok false := by
    intro parts
    unfold timeCallBody
    split
    · rfl
    · exact processCurrentTime_weekend v d db clock parts hw hd
  unfold timeCall
  cases getTagParts d r with
  | none =>
    dsimp only
    cases hopt : d.opt_out with
    | false => rfl
    | true => exact hbody []
  | some parts => exact hbody parts

/-- Witness for C6: a Sunday evaluation of a custom schedule whose rules name
the weekend day codes `s` and `u` still yields no-match. -/
theorem claim_c6_weekend_no_match_witness :
    timeCall .offh {} stdDb (fun _ => ⟨6, 19, 0⟩)
      ⟨[(DEFAULT_TAG, "on=(u,7);off=(s,19)".toList)]⟩ = .ok false :=
  claim_c6_weekend_no_match .offh {} stdDb (fun _ => ⟨6, 19, 0⟩)
    ⟨[(DEFAULT_TAG, "on=(u,7);off=(s,19)".toList)]⟩ rfl (fun _ => Or.inr rfl)

/-- C7: whenever the normalized, whitespace-split tag value contains the
literal token `off`, evaluation returns no-match in every variant and mode,
regardless of any other token. -/
theorem claim_c7_off_token (v : Variant) (d : TimeData) (db : List Str)
    (clock : Str → DateTime) (r : Resource) (parts : List Str)
    (hp : getTagParts d r = some parts) (hoff : "off".toList ∈ parts) :
    timeCall v d db clock r = .ok false := by
  unfold timeCall
  rw [hp]
  dsimp only
  unfold timeCallBody
  rw [if_pos hoff]

/-- Witness for C7: the tag value `off tz=pt` contains the token `off` next
to an otherwise meaningful token and evaluation returns no-match. -/
theorem claim_c7_off_token_witness :
    timeCall .onh {} stdDb (fun _ => ⟨0, 7, 0⟩)
      ⟨[(DEFAULT_TAG, "off tz=pt".toList)]⟩ = .ok false :=
  claim_c7_off_token .onh {} stdDb (fun _ => ⟨0, 7, 0⟩)
    ⟨[(DEFAULT_TAG, "off tz=pt".toList)]⟩ ["off".toList, "tz=pt".toList]
    (by decide) (by decide)

/-- C8: when the configured tag key is absent from the resource, opt-in mode
(the default) returns false immediately, and opt-out mode evaluates exactly
as a resource whose tag value normalizes to the empty token list (the
all-defaults schedule) would. -/
theorem claim_c8_missing_tag (v : Variant) (d : TimeData) (db : List Str)
    (clock : Str → DateTime) (r r' : Resource)
    (hr : getTagParts d r = none) (hr' : getTagParts d r' = some []) :
    timeCall v d db clock r =
      (if d.opt_out then timeCall v d db clock r' else .ok false) := by
  unfold timeCall
  rw [hr, hr']

/-- Witness for C8 with opt-out enabled: a resource with no tags at all
evaluates like one carrying an empty tag value. -/
theorem claim_c8_missing_tag_witness :
    timeCall .offh { opt_out := true, offhour := some 19 } stdDb
      (fun _ => ⟨0, 19, 0⟩) ⟨[]⟩ =
      (if ({ opt_out := true, offhour := some 19 } : TimeData).opt_out then
        timeCall .offh { opt_out := true, offhour := some 19 } stdDb
          (fun _ => ⟨0, 19, 0⟩) ⟨[(DEFAULT_TAG, [])]⟩
      else .ok false) :=
  claim_c8_missing_tag .offh { opt_out := true, offhour := some 19 } stdDb
    (fun _ => ⟨0, 19, 0⟩) ⟨[]⟩ ⟨[(DEFAULT_TAG, [])]⟩ (by decide) (by decide)

/-- C9: parsing the same raw string twice — whether or not the second call is
served from the cache — returns structurally equal results, and the result
observed through an empty cache is exactly the pure parse of the string. -/
theorem claim_c9_parse_deterministic (cache : List (Str × Option Dict)) (tv : Str) :
    (parseCached (parseCached cache tv).2 tv).1 = (parseCached cache tv).1 ∧
    (parseCached [] tv).1 = parse tv := by
  refine ⟨?_, rfl⟩
  cases hg : alGet tv cache with
  | some r =>
    have h1 : parseCached cache tv = (r, cache) := by
      unfold parseCached
      rw [hg]
    simp [h1]
  | none =>
    have h1 : parseCached cache tv = (parse tv, alSet tv (parse tv) cache) := by
      unfold parseCached
      rw [hg]
    have h2 : parseCached (alSet tv (parse tv) cache) tv =
        (parse tv, alSet tv (parse tv) cache) := by
      unfold parseCached
      rw [alGet_alSet_self]
    simp [h1, h2]

/-- C1 (amended): evaluation returns a boolean — no exception escapes —
provided every hour value the sentinel path can construct stays in 0..23,
i.e. the base hour and minute options are in range and the variant's
sentinel hour plus the skew tolerance does not exceed 23. (As stated the
claim is false: see the counterexample, where the skew probe constructs
hour 24 and the ValueError escapes.) -/
theorem claim_c1_amended_no_raise (v : Variant) (d : TimeData) (db : List Str)
    (clock : Str → DateTime) (r : Resource)
    (h1 : d.hour ≤ 23) (h2 : d.minute ≤ 59)
    (h3 : sentinelHourOf v d + d.skew ≤ 23) :
    ∃ b, timeCall v d db clock r = .ok b := by
  have hbody : ∀ parts, ∃ b, timeCallBody v d db clock parts = .ok b := by
    intro parts
    unfold timeCallBody
    split
    · exact ⟨false, rfl⟩
    · simp only [processCurrentTime]
      rw [getLocalTz_tzPart_ok d db _ (parsedOf_tzOk parts)]
      cases gettz db ((alGet (formatTz (alGet tzKey (parsedOf parts))) TZ_ALIASES).getD
          (formatTz (alGet tzKey (parsedOf parts)))) with
      | none => exact ⟨false, rfl⟩
      | some z =>
        dsimp only
        split
        · exact ⟨false, rfl⟩
        · split
          · exact ⟨_, rfl⟩
          · rw [getSentinelTime_ok v d (clock z) h1 h2
              (le_trans (Nat.le_add_right _ _) h3)]
            dsimp only
            split
            · exact ⟨true, rfl⟩
            · split
              · exact ⟨false, rfl⟩
              · apply skewLoop_ok
                intro i hi
                have hle := (List.mem_range'_1.mp hi).2
                show sentinelHourOf v d + i ≤ 23
                omega
  unfold timeCall
  cases getTagParts d r with
  | none =>
    dsimp only
    cases hopt : d.opt_out with
    | false => exact ⟨false, rfl⟩
    | true => exact hbody []
  | some parts => exact hbody parts

/-- Witness for the amended C1 at a concrete in-range configuration. -/
theorem claim_c1_amended_no_raise_witness :
    ∃ b, timeCall .offh { skew := 2, offhour := some 19 } stdDb
      (fun _ => ⟨0, 10, 0⟩) ⟨[(DEFAULT_TAG, [])]⟩ = .ok b :=
  claim_c1_amended_no_raise .offh { skew := 2, offhour := some 19 } stdDb
    (fun _ => ⟨0, 10, 0⟩) ⟨[(DEFAULT_TAG, [])]⟩ (by decide) (by decide) (by decide)

/-- Counterexample to C1 as stated: `offhour` 23 with skew 1 and no match at
hour 23 (the clock reads hour 10, Monday): the skew probe calls
`replace(hour=24)` and the ValueError escapes `__call__` instead of a
boolean being returned. -/
theorem claim_c1_counterexample :
    timeCall .offh { skew := 1, offhour := some 23 } stdDb (fun _ => ⟨0, 10, 0⟩)
      ⟨[(DEFAULT_TAG, [])]⟩ = .error "hour must be in 0..23" := by
  decide

/-- C5: on the default sentinel path (empty tag value, timezone resolved,
Monday–Friday, minute option 0) with `offhour` 19: with skew 2 evaluation
matches exactly at hours 19, 20, 21 (so not at 18 or 22), and with skew 0
only at hour 19. -/
theorem claim_c5_skew_window (wd : Fin 5) (h : Fin 24) :
    timeCall .offh { skew := 2, offhour := some 19 } stdDb
      (fun _ => ⟨wd.val, h.val, 0⟩) ⟨[(DEFAULT_TAG, [])]⟩ =
      .ok (h.val == 19 || h.val == 20 || h.val == 21) ∧
    timeCall .offh { offhour := some 19 } stdDb
      (fun _ => ⟨wd.val, h.val, 0⟩) ⟨[(DEFAULT_TAG, [])]⟩ =
      .ok (h.val == 19) := by
  revert wd h
  decide

theorem parse_isValid (tv : Str) (sched : Dict) (h : parse tv = some sched) :
    isValid sched = true := by
  simp only [parse] at h
  split at h <;> split at h <;>
    first
      | (rename_i hv; exact Option.some.inj h ▸ hv)
      | exact absurd h (by simp)

theorem isValid_on_implies (sched : Dict) (hvalid : isValid sched = true)
    (hon : alHasKey onKey sched = true) :
    alHasKey offKey sched = true ∧
    isValidHours (schedHours sched offKey) = true ∧
    isValidHours (schedHours sched onKey) = true := by
  by_cases hoff : alHasKey offKey sched = true
  · simp only [isValid, hon, hoff] at hvalid
    simp at hvalid
    exact ⟨hoff, hvalid.1, hvalid.2⟩
  · have hoffb : alHasKey offKey sched = false := by simpa using hoff
    simp [isValid, hon, hoffb] at hvalid

theorem truthy_of_valid (sched : Dict) (k : Str)
    (hk : alHasKey k sched = true)
    (hv : isValidHours (schedHours sched k) = true) :
    truthy (alGet k sched) = true := by
  unfold alHasKey at hk
  cases hg : alGet k sched with
  | none =>
    rw [hg] at hk
    simp at hk
  | some sv =>
    cases sv with
    | str s =>
      unfold schedHours at hv
      rw [hg] at hv
      simp [svalHours, isValidHours] at hv
    | hours l =>
      unfold schedHours at hv
      rw [hg] at hv
      simp only [Option.getD_some, svalHours] at hv
      unfold isValidHours at hv
      have hl : 0 < l.length := by
        have := ((Bool.and_eq_true _ _).mp hv).1
        simpa using this
      cases l with
      | nil => simp at hl
      | cons a rest => simp [truthy]

theorem isCustom_of (sched : Dict) (hlen : sched.length = 3)
    (hon : truthy (alGet onKey sched) = true)
    (hoff : truthy (alGet offKey sched) = true) :
    isCustom sched = true := by
  simp [isCustom, hlen, hon, hoff]

theorem parsedOf_single (tv : Str) (sched : Dict) (h : parse tv = some sched) :
    parsedOf [tv] = sched := by
  unfold parsedOf
  simp [List.head?, h]

/-- C3 (amended): for a successfully parsed schedule with a non-empty `on`
list (validity then forces a matching non-empty `off` list) the custom path
is taken exactly when the dict has exactly three keys — i.e. no extra
(ignored) key survived parsing: the evaluation result is `get_custom_time`,
which consults the `on` list in the on-hour variant, the `off` list in the
off-hour variant, and returns false in the base variant. (As stated — "the
custom path is taken regardless of how many other keys the schedule
contains" — the claim is false: see the counterexample, where one extra
ignored key forces the sentinel path.) -/
theorem claim_c3_amended_custom_path (v : Variant) (d : TimeData) (db : List Str)
    (clock : Str → DateTime) (tv : Str) (sched : Dict) (z : Str)
    (hp : parse tv = some sched)
    (hon : alHasKey onKey sched = true)
    (hlen : sched.length = 3)
    (htz : getLocalTz d db [tzPart sched] = .ok (some z))
    (hwd : (clock z).weekday < 5) :
    processCurrentTime v d db clock [tv] =
      .ok (getCustomTime v { clock z with minute := 0 } sched) ∧
    getCustomTime .base { clock z with minute := 0 } sched = false ∧
    (∀ t, getCustomTime .onh t sched = (schedHours sched onKey).any (ruleMatches t)) ∧
    (∀ t, getCustomTime .offh t sched = (schedHours sched offKey).any (ruleMatches t)) ∧
    isCustom sched = true := by
  have hvalid := parse_isValid tv sched hp
  obtain ⟨hoffk, hvoff, hvon⟩ := isValid_on_implies sched hvalid hon
  have hton := truthy_of_valid sched onKey hon hvon
  have htoff := truthy_of_valid sched offKey hoffk hvoff
  have hcust := isCustom_of sched hlen hton htoff
  refine ⟨?_, rfl, fun t => rfl, fun t => rfl, hcust⟩
  simp only [processCurrentTime]
  rw [parsedOf_single tv sched hp, htz]
  dsimp only
  have hnw : ¬(d.weekends = false ∧
      (({ clock z with minute := 0 } : DateTime).weekday = 5 ∨
       ({ clock z with minute := 0 } : DateTime).weekday = 6)) := by
    intro hc
    have hwd' : ({ clock z with minute := 0 } : DateTime).weekday < 5 := hwd
    rcases hc.2 with h5 | h5 <;> omega
  rw [if_neg hnw, if_pos hcust]

/-- Witness for the amended C3: the three-key schedule
`on=(m-f,7);off=(m-f,19)` (default tz added by the parser) takes the custom
path on a Monday at 07:30. -/
theorem claim_c3_amended_custom_path_witness :
    processCurrentTime .onh {} stdDb (fun _ => ⟨0, 7, 30⟩)
      ["on=(m-f,7);off=(m-f,19)".toList] =
      .ok (getCustomTime .onh
        { (fun (_ : Str) => (⟨0, 7, 30⟩ : DateTime)) "America/New_York".toList with
          minute := 0 }
        [(onKey, SVal.hours [⟨[['m'], ['t'], ['w'], ['h'], ['f']], 7⟩]),
         (offKey, SVal.hours [⟨[['m'], ['t'], ['w'], ['h'], ['f']], 19⟩]),
         (tzKey, SVal.str DEFAULT_TZ)]) ∧
    getCustomTime .base
      { (fun (_ : Str) => (⟨0, 7, 30⟩ : DateTime)) "America/New_York".toList with
        minute := 0 }
      [(onKey, SVal.hours [⟨[['m'], ['t'], ['w'], ['h'], ['f']], 7⟩]),
       (offKey, SVal.hours [⟨[['m'], ['t'], ['w'], ['h'], ['f']], 19⟩]),
       (tzKey, SVal.str DEFAULT_TZ)] = false ∧
    (∀ t, getCustomTime .onh t
      [(onKey, SVal.hours [⟨[['m'], ['t'], ['w'], ['h'], ['f']], 7⟩]),
       (offKey, SVal.hours [⟨[['m'], ['t'], ['w'], ['h'], ['f']], 19⟩]),
       (tzKey, SVal.str DEFAULT_TZ)] =
      (schedHours
        [(onKey, SVal.hours [⟨[['m'], ['t'], ['w'], ['h'], ['f']], 7⟩]),
         (offKey, SVal.hours [⟨[['m'], ['t'], ['w'], ['h'], ['f']], 19⟩]),
         (tzKey, SVal.str DEFAULT_TZ)] onKey).any (ruleMatches t)) ∧
    (∀ t, getCustomTime .offh t
      [(onKey, SVal.hours [⟨[['m'], ['t'], ['w'], ['h'], ['f']], 7⟩]),
       (offKey, SVal.hours [⟨[['m'], ['t'], ['w'], ['h'], ['f']], 19⟩]),
       (tzKey, SVal.str DEFAULT_TZ)] =
      (schedHours
        [(onKey, SVal.hours [⟨[['m'], ['t'], ['w'], ['h'], ['f']], 7⟩]),
         (offKey, SVal.hours [⟨[['m'], ['t'], ['w'], ['h'], ['f']], 19⟩]),
         (tzKey, SVal.str DEFAULT_TZ)] offKey).any (ruleMatches t)) ∧
    isCustom
      [(onKey, SVal.hours [⟨[['m'], ['t'], ['w'], ['h'], ['f']], 7⟩]),
       (offKey, SVal.hours [⟨[['m'], ['t'], ['w'], ['h'], ['f']], 19⟩]),
       (tzKey, SVal.str DEFAULT_TZ)] = true :=
  claim_c3_amended_custom_path .onh {} stdDb (fun _ => ⟨0, 7, 30⟩)
    "on=(m-f,7);off=(m-f,19)".toList
    [(onKey, SVal.hours [⟨[['m'], ['t'], ['w'], ['h'], ['f']], 7⟩]),
     (offKey, SVal.hours [⟨[['m'], ['t'], ['w'], ['h'], ['f']], 19⟩]),
     (tzKey, SVal.str DEFAULT_TZ)]
    "America/New_York".toList (by decide) (by decide) (by decide) (by decide) (by decide)

/-- Counterexample to C3 as stated: the schedule
`on=(m-f,10);off=(m-f,15);foo=1` parses successfully with non-empty `on` and
`off` lists, yet the extra ignored key makes `is_custom` false, so on a
Monday at hour 10 (where the custom `on` rule would match) the on-hour
variant takes the sentinel path and returns no-match. -/
theorem claim_c3_counterexample :
    truthy (alGet onKey ((parse "on=(m-f,10);off=(m-f,15);foo=1".toList).getD [])) = true ∧
    truthy (alGet offKey ((parse "on=(m-f,10);off=(m-f,15);foo=1".toList).getD [])) = true ∧
    (parse "on=(m-f,10);off=(m-f,15);foo=1".toList).isSome = true ∧
    isCustom ((parse "on=(m-f,10);off=(m-f,15);foo=1".toList).getD []) = false ∧
    getCustomTime .onh ⟨0, 10, 0⟩
      ((parse "on=(m-f,10);off=(m-f,15);foo=1".toList).getD []) = true ∧
    timeCall .onh {} stdDb (fun _ => ⟨0, 10, 0⟩)
      ⟨[(DEFAULT_TAG, "on=(m-f,10);off=(m-f,15);foo=1".toList)]⟩ = .ok false := by
  decide

/-- Does a `;`-separated piece carry the dict key `k` (split on `=` into
exactly a key-value pair with that key)? -/
def isKeyPiece (k q : Str) : Bool :=
  match pySplit1 '=' q with
  | [k', _] => k' == k
  | _ => false

theorem parsePieces_append (l1 l2 : List Str) (d : Dict) :
    parsePieces (l1 ++ l2) d = parsePieces l2 (parsePieces l1 d) := by
  induction l1 generalizing d with
  | nil => rfl
  | cons p rest ih =>
    simp only [List.cons_append, parsePieces]
    split
    · split
      · exact ih _
      · exact ih _
    · exact ih _

theorem parsePieces_no_key (k : Str) (post : List Str) (d : Dict)
    (h : ∀ q ∈ post, isKeyPiece k q = false) :
    alGet k (parsePieces post d) = alGet k d := by
  induction post generalizing d with
  | nil => rfl
  | cons q rest ih =>
    have hq := h q (List.mem_cons_self q rest)
    have hrest : ∀ q' ∈ rest, isKeyPiece k q' = false :=
      fun q' hq' => h q' (List.mem_cons_of_mem _ hq')
    simp only [parsePieces]
    split
    · next k' v' heq =>
      have hk' : k' ≠ k := by
        unfold isKeyPiece at hq
        rw [heq] at hq
        simpa using hq
      split
      · rw [ih _ hrest, alGet_alSet_ne _ _ _ _ hk']
      · rw [ih _ hrest, alGet_alSet_ne _ _ _ _ hk']
    · exact ih _ hrest

theorem isValid_empty (sched : Dict) (k : Str) (hk : k = onKey ∨ k = offKey)
    (hg : alGet k sched = some (SVal.hours [])) : isValid sched = false := by
  have hk1 : alHasKey k sched = true := by simp [alHasKey, hg]
  rcases hk with h | h <;> subst h
  · by_cases hoff : alHasKey offKey sched = true
    · have hsh : schedHours sched onKey = [] := by simp [schedHours, hg, svalHours]
      simp [isValid, hk1, hoff, hsh, isValidHours]
    · have hoffb : alHasKey offKey sched = false := by simpa using hoff
      simp [isValid, hk1, hoffb]
  · by_cases hon : alHasKey onKey sched = true
    · have hsh : schedHours sched offKey = [] := by simp [schedHours, hg, svalHours]
      simp [isValid, hk1, hon, hsh, isValidHours]
    · have honb : alHasKey onKey sched = false := by simpa using hon
      simp [isValid, hk1, honb]

/-- C4 (amended): if the `on=`/`off=` occurrence that takes effect — the last
piece carrying that key, since a later duplicate key overwrites an earlier
one — has a value with any malformed group (`parse_custom_hours` collapses
the whole value to the empty list), then `parse` returns the explicit
Invalid result for the entire string, never a partial schedule. (As stated —
for *every* string containing such a value — the claim is false: see the
counterexample, where a duplicate key masks the malformed value.) -/
theorem claim_c4_amended_all_or_nothing (tv k v piece : Str) (pre post : List Str)
    (hk : k = onKey ∨ k = offKey)
    (hsplit : pySplit1 ';' tv = pre ++ piece :: post)
    (hpiece : pySplit1 '=' piece = [k, v])
    (hlast : ∀ q ∈ post, isKeyPiece k q = false)
    (hbad : parseCustomHours v = []) :
    parse tv = none := by
  have hstep : parsePieces (piece :: post) (parsePieces pre []) =
      parsePieces post (alSet k (SVal.hours (parseCustomHours v)) (parsePieces pre [])) := by
    conv_lhs => rw [parsePieces]
    rw [hpiece]
    dsimp only
    rw [if_pos hk]
  have hget : alGet k (parsePieces (pySplit1 ';' tv) []) = some (SVal.hours []) := by
    rw [hsplit, parsePieces_append, hstep, parsePieces_no_key k post _ hlast,
      hbad, alGet_alSet_self]
  have hkt : k ≠ tzKey := by
    rcases hk with h | h <;> subst h <;> decide
  simp only [parse]
  by_cases htz : alHasKey tzKey (parsePieces (pySplit1 ';' tv) []) = true
  · rw [if_pos htz, if_neg ?_]
    simp [isValid_empty _ k hk hget]
  · rw [if_neg htz, if_neg ?_]
    have hget2 : alGet k (alSet tzKey (SVal.str DEFAULT_TZ)
        (parsePieces (pySplit1 ';' tv) [])) = some (SVal.hours []) := by
      rw [alGet_alSet_ne _ _ _ _ (Ne.symm hkt), hget]
    simp [isValid_empty _ k hk hget2]

/-- Witness for the amended C4: `off=(m-z,19);on=(m-f,7)` has a malformed
group (`z` is no day code) in its only `off=` value, so the whole string is
Invalid. -/
theorem claim_c4_amended_all_or_nothing_witness :
    parse "off=(m-z,19);on=(m-f,7)".toList = none :=
  claim_c4_amended_all_or_nothing "off=(m-z,19);on=(m-f,7)".toList offKey
    "(m-z,19)".toList "off=(m-z,19)".toList [] ["on=(m-f,7)".toList]
    (Or.inr rfl) (by decide) (by decide) (by decide) (by decide)

/-- Counterexample to C4 as stated: in
`off=(m-z,19);off=(m-f,19);on=(m-f,7)` the first `off=` value has a
malformed group (its whole value collapses to the empty list), yet `parse`
returns a Schedule — the duplicate `off` key overwrote the malformed value,
so the result holds exactly the well-formed groups. -/
theorem claim_c4_counterexample :
    parseCustomHours "(m-z,19)".toList = [] ∧
    (parse "off=(m-z,19);off=(m-f,19);on=(m-f,7)".toList).isSome = true ∧
    schedHours ((parse "off=(m-z,19);off=(m-f,19);on=(m-f,7)".toList).getD []) offKey =
      [⟨[['m'], ['t'], ['w'], ['h'], ['f']], 19⟩] := by
  decide

/-- The day code at a position of the fixed week ordering `[m,t,w,h,f,s,u]`. -/
def dayChar : Fin 7 → Char
  | 0 => 'm'
  | 1 => 't'
  | 2 => 'w'
  | 3 => 'h'
  | 4 => 'f'
  | 5 => 's'
  | 6 => 'u'

/-- C10 (amended): a reversed day range `a-b` (with `a` strictly after `b` in
the week ordering) expands to the empty Python slice — never a wrap-around —
so the resulting rule has an empty day set, fails the non-empty-days
validation, and a schedule whose effective `off=` value consists of such a
group parses to Invalid (shown for the claim's example shape
`off=(a-b,19);on=(m-f,7)`). (As stated — for *every* string containing a
reversed range — the claim is false: see the counterexample, where a
duplicate `off=` key masks the reversed range.) -/
theorem claim_c10_amended_reversed_range (a b : Fin 7) (hab : b < a) :
    expandDayRange [dayChar a, '-', dayChar b] = some [] ∧
    (∀ h : Int, isValidHour { days := [], hour := h } = false) ∧
    parse ("off=(".toList ++ [dayChar a, '-', dayChar b] ++ ",19);on=(m-f,7)".toList) =
      none := by
  have h1 : ∀ x y : Fin 7, y < x → expandDayRange [dayChar x, '-', dayChar y] = some [] := by
    decide
  have h2 : ∀ x y : Fin 7, y < x →
      parse ("off=(".toList ++ [dayChar x, '-', dayChar y] ++ ",19);on=(m-f,7)".toList) =
        none := by
    decide
  exact ⟨h1 a b hab, fun h => rfl, h2 a b hab⟩

/-- Witness for the amended C10 at the reversed range `f-m`. -/
theorem claim_c10_amended_reversed_range_witness :
    expandDayRange [dayChar 4, '-', dayChar 0] = some [] ∧
    (∀ h : Int, isValidHour { days := [], hour := h } = false) ∧
    parse ("off=(".toList ++ [dayChar 4, '-', dayChar 0] ++ ",19);on=(m-f,7)".toList) =
      none :=
  claim_c10_amended_reversed_range 4 0 (by decide)

/-- Counterexample to C10 as stated: the schedule string
`off=(f-m,19);off=(m-f,19);on=(m-f,7)` contains the reversed day range `f-m`
(which does expand to the empty day set), yet `parse` returns a Schedule,
because the later duplicate `off=` key overwrites the invalid value. -/
theorem claim_c10_counterexample :
    expandDayRange "f-m".toList = some [] ∧
    (parse "off=(f-m,19);off=(m-f,19);on=(m-f,7)".toList).isSome = true := by
  decide

/-- C2 (code-bug evidence): with the policy option `default_tz = 'pt'` and a
tag value specifying no timezone, `process_current_time` builds the part
list `['tz=et']` from the parser's substituted global default, so
`get_local_tz` resolves America/New_York — the policy default is never
consulted (third conjunct: had the part list carried no `tz=` entry, the
same options would resolve `pt` to America/Los_Angeles). The final conjunct
shows a full evaluation observing New_York local time, not Los_Angeles. -/
theorem claim_c2_default_tz_dead :
    getLocalTz { default_tz := some "pt".toList, offhour := some 19 } stdDb
      [tzPart ((parse []).getD [])] = .ok (some "America/New_York".toList) ∧
    "America/New_York".toList ≠ "America/Los_Angeles".toList ∧
    getLocalTz { default_tz := some "pt".toList, offhour := some 19 } stdDb [] =
      .ok (some "America/Los_Angeles".toList) ∧
    timeCall .offh { default_tz := some "pt".toList, offhour := some 19 } stdDb
      (fun z => if z = "America/New_York".toList then ⟨0, 19, 0⟩ else ⟨0, 3, 0⟩)
      ⟨[(DEFAULT_TAG, [])]⟩ = .ok true := by
  decide

end Offhours
